import Mathlib

/-!
Verification of the go-tunnel tunnel engine (internal/tunnel/tunnel.go and
its callers) against its natural-language specification.

The Go code is shallowly embedded: pure helpers become Lean functions,
stateful operations become explicit state passing over a registry value, and
interactions with the operating system (dialing, listening, the clock, map
iteration order) become explicit parameters.  Machine integers are modelled
as `Int`/`Nat`; Go `error` values are modelled by the inductive `GoErr`
below, which records exactly the distinctions the code inspects.
-/

namespace GoTunnel

/-! ## Error model and the error classifier

Go errors, as far as `isClosedError` and `isTimeout` inspect them:
`io.EOF` is a distinguished sentinel; a `*net.OpError` wraps an inner error
(the code reads `opErr.Err.Error()`) and, being a `net.Error`, carries a
`Timeout()` bit; any other `net.Error` carries only its `Timeout()` bit;
all remaining errors are plain messages. -/
inductive GoErr where
  | eof : GoErr
  | opErr (inner : String) (timeoutFlag : Bool) : GoErr
  | netErr (timeoutFlag : Bool) : GoErr
  | plain (msg : String) : GoErr
  deriving Repr, DecidableEq

/-- Embeds `isClosedError` (tunnel.go): true for `io.EOF`, and for a
`*net.OpError` whose wrapped error message is one of the three listed
strings. -/
def isClosedError : GoErr → Bool
  | .eof => true
  | .opErr inner _ =>
      inner == "use of closed network connection" ||
      inner == "connection reset by peer" ||
      inner == "broken pipe"
  | .netErr _ => false
  | .plain _ => false

/-- Embeds `isTimeout` (tunnel.go): true when the error is a `net.Error`
(`*net.OpError` included) whose `Timeout()` reports true. -/
def isTimeout : GoErr → Bool
  | .eof => false
  | .opErr _ t => t
  | .netErr t => t
  | .plain _ => false

/-! ## Registry key encoding

`CreateTunnel` and `CloseTunnel` key the registry map by
`fmt.Sprintf("%s:%d", host, remotePort)`.  The `%d` verb renders the Go int
in decimal; `goFormatInt` embeds that rendering. -/

/-- One decimal digit as a character, mirroring the `%d` verb digit by
digit. -/
def goDigitChar (d : Nat) : Char := Char.ofNat (48 + d)

/-- Decimal rendering of a natural number as `%d` prints it (most
significant digit first, and `0` prints as `"0"`). -/
def goFormatNat (n : Nat) : List Char :=
  if n = 0 then [goDigitChar 0]
  else ((Nat.digits 10 n).map goDigitChar).reverse

/-- Decimal rendering of a Go int as `%d` prints it. -/
def goFormatInt : Int → List Char
  | .ofNat n => goFormatNat n
  | .negSucc n => Char.ofNat 45 :: goFormatNat (n + 1)

/-- Embeds the key construction `fmt.Sprintf("%s:%d", host, remotePort)`
shared by `CreateTunnel`, `CloseTunnel` and `CloseAllTunnels`, at the level
of character lists. -/
def tunnelKeyChars (host : List Char) (remotePort : Int) : List Char :=
  host ++ Char.ofNat 58 :: goFormatInt remotePort

/-- The same key as a `String`, the form stored in the Go map. -/
def tunnelKey (host : String) (remotePort : Int) : String :=
  String.mk (tunnelKeyChars host.data remotePort)

/-! ## Registry data model

The `Tunnel` struct of tunnel.go, restricted to the fields the registry
operations read and write.  Handles to live OS resources (`client`,
`listener`, the channels) are identified by the tunnel value itself; the
two timestamps are modelled as natural-number instants from a monotonic
clock. -/
structure TunnelRec where
  host : String
  localPort : Int
  remotePort : Int
  createdAt : Nat
  lastActivity : Nat
  deriving Repr, DecidableEq

/-- The `TunnelManager.tunnels` Go map, as an association list in the order
entries were inserted.  Go map semantics used by the code: lookup by key,
insert of a fresh key, delete by key, `len`, and iteration in an order the
runtime chooses (modelled separately as an explicit order parameter). -/
abbrev Registry := List (String × TunnelRec)

/-- Go map lookup `tm.tunnels[key]`. -/
def lookupKey (tm : Registry) (key : String) : Option TunnelRec :=
  List.lookup key tm

/-- Go map delete `delete(tm.tunnels, key)`. -/
def deleteKey (tm : Registry) (key : String) : Registry :=
  List.filter (fun kv => kv.1 != key) tm

/-! ## CreateTunnel

`TunnelManager.CreateTunnel` under the manager lock.  Every effect whose
outcome the operating system decides is a field of `SshEnv`; the code
checks them in exactly the source order: TCP dial to `host:22`, the three
TCP keepalive configuration calls, the SSH handshake
(`ssh.NewClientConn`), and finally the local listen.  On each failure the
function returns the corresponding error and the registry is untouched; on
success a fresh `TunnelRec` (with `CreatedAt = LastActivity = now`) is
inserted under `tunnelKey host remotePort`. -/
structure SshEnv where
  dialOK : Bool
  keepAliveOK : Bool
  keepAlivePeriodOK : Bool
  lingerOK : Bool
  sshConnOK : Bool
  listenOK : Bool
  deriving Repr, DecidableEq

/-- The tunnel value built at the end of a successful `CreateTunnel`. -/
def mkTunnelRec (host : String) (localPort remotePort : Int) (now : Nat) :
    TunnelRec :=
  ⟨ host, localPort, remotePort, now, now ⟩

/-- Embeds `TunnelManager.CreateTunnel`: returns the Go error (`none` is
`nil`) and the registry after the call. -/
def createTunnel (tm : Registry) (host : String)
    (localPort remotePort : Int) (env : SshEnv) (now : Nat) :
    Option String × Registry :=
  let key := tunnelKey host remotePort
  if (lookupKey tm key).isSome then
    (some "tunnel already exists", tm)
  else if !env.dialOK then
    (some "failed to connect to host", tm)
  else if !env.keepAliveOK then
    (some "failed to enable keepalive", tm)
  else if !env.keepAlivePeriodOK then
    (some "failed to set keepalive period", tm)
  else if !env.lingerOK then
    (some "failed to set linger", tm)
  else if !env.sshConnOK then
    (some "failed to create SSH connection", tm)
  else if !env.listenOK then
    (some "failed to start local listener", tm)
  else
    (none, tm ++ [(key, mkTunnelRec host localPort remotePort now)])

/-- Embeds `TunnelManager.CloseTunnel`. -/
def closeTunnel (tm : Registry) (host : String) (remotePort : Int) :
    Option String × Registry :=
  let key := tunnelKey host remotePort
  match lookupKey tm key with
  | none => (some "tunnel not found", tm)
  | some _ => (none, deleteKey tm key)

/-! ## ListTunnels and CloseAllTunnels

Go `range` over a map visits entries in an order the runtime chooses anew
on each iteration.  `ListTunnels` is therefore parametrised by that order:
a list of positions into the registry.  An order is valid when it is a
permutation of all positions. -/

/-- Embeds `TunnelManager.ListTunnels`: snapshots the entries in the map
iteration order `ord` chosen by the runtime. -/
def listTunnels (tm : Registry) (ord : List Nat) : List TunnelRec :=
  List.filterMap (fun i => (List.get? tm i).map Prod.snd) ord

/-- `ord` is a possible Go map iteration order for `tm`. -/
def ValidOrder (tm : Registry) (ord : List Nat) : Prop :=
  List.Perm ord (List.range (List.length tm))

/-- The loop body of `CloseAllTunnels`: for each visited entry, close its
resources and delete its key from the map. -/
def closeAllLoop : List (String × TunnelRec) → Registry → Registry
  | [], tm => tm
  | (k, _) :: rest, tm => closeAllLoop rest (deleteKey tm k)

/-- Embeds `TunnelManager.CloseAllTunnels`: reads `len(tm.tunnels)` first,
then deletes every entry, returning the count read. -/
def closeAllTunnels (tm : Registry) : Nat × Registry :=
  (List.length tm, closeAllLoop tm tm)

/-! ## The pump loop (`copyData` inside `Tunnel.forward`)

One iteration of a copy loop observes: whether the shared context was
cancelled, then the result of `src.Read` under a freshly armed 5 s read
deadline, then (only after a successful read) the result of `dst.Write`
under a 5 s write deadline.  `PumpEvent` packages what the environment
delivers on one iteration. -/
inductive ReadResult where
  | ok (n : Nat) : ReadResult
  | err (e : GoErr) : ReadResult
  deriving Repr, DecidableEq

inductive WriteResult where
  | ok : WriteResult
  | err (e : GoErr) : WriteResult
  deriving Repr, DecidableEq

structure PumpEvent where
  ctxDone : Bool
  read : ReadResult
  write : WriteResult
  deriving Repr, DecidableEq

/-- Outcome of one iteration of `copyData`: either the loop goes on after
moving `n` bytes and touching the activity timestamp, or it returns —
silently, or after emitting one log line for the error. -/
inductive StepOut where
  | next (n : Nat) : StepOut
  | stopSilent : StepOut
  | stopLogged (e : GoErr) : StepOut
  deriving Repr, DecidableEq

/-- Whether the outcome keeps the loop running. -/
def StepOut.goesOn : StepOut → Bool
  | .next _ => true
  | .stopSilent => false
  | .stopLogged _ => false

/-- Embeds one iteration of `copyData` (tunnel.go): context cancellation
returns silently; a read error returns, logged unless it is a benign close
or a timeout; after a successful read, a write error returns under the
same classification; a successful write transfers the bytes and calls
`t.updateActivity()`. -/
def copyStep (ev : PumpEvent) : StepOut :=
  if ev.ctxDone then .stopSilent
  else
    match ev.read with
    | .err e =>
        if !isClosedError e && !isTimeout e then .stopLogged e else .stopSilent
    | .ok n =>
        match ev.write with
        | .err e =>
            if !isClosedError e && !isTimeout e then .stopLogged e
            else .stopSilent
        | .ok => .next n

/-- Running `copyData` over a stream of iteration events: total bytes
moved before the loop returned, and the log lines it emitted.  A loop that
exhausts the event stream is one the environment has not yet stopped. -/
def copyData : List PumpEvent → Nat × List GoErr
  | [] => (0, [])
  | ev :: rest =>
      match copyStep ev with
      | .next n =>
          let r := copyData rest
          (n + r.1, r.2)
      | .stopSilent => (0, [])
      | .stopLogged e => (0, [e])

/-! ## The SSH keepalive loop and the health monitor -/

/-- What one tick of a background loop did: whether the goroutine
returned, logged, pushed on the tunnel's `reconnect` channel, or closed
the SSH client. -/
structure LoopTick where
  exits : Bool
  logged : Bool
  signaledReconnect : Bool
  closedClient : Bool
  deriving Repr, DecidableEq

/-- Embeds one tick of the SSH keepalive goroutine started inside
`CreateTunnel`: it sends `keepalive@openssh.com`; on failure it logs and
returns, and that is all it does. -/
def keepaliveTick (sendOK : Bool) : LoopTick :=
  if sendOK then ⟨ false, false, false, false ⟩
  else ⟨ true, true, false, false ⟩

/-- Result the health monitor observes from its bounded connection test:
the probe reply arrived with no error, arrived with an error, or the 5 s
wall-clock deadline fired first. -/
inductive ProbeResult where
  | ok : ProbeResult
  | failed : ProbeResult
  | timedOut : ProbeResult
  deriving Repr, DecidableEq

/-- Embeds one `healthCheck` tick of `Tunnel.monitorHealth`: with recent
activity the flag is reset and nothing else happens; when idle, a failed
or timed-out probe pushes on the `reconnect` channel (non-blocking) and
the loop continues. -/
def monitorTick (isActive : Bool) (probe : ProbeResult) : LoopTick :=
  if isActive then ⟨ false, false, false, false ⟩
  else
    match probe with
    | .ok => ⟨ false, false, false, false ⟩
    | .failed => ⟨ false, true, true, false ⟩
    | .timedOut => ⟨ false, true, true, false ⟩

/-! ## reconnectSSH

`Tunnel.reconnectSSH` dials a replacement client, and only on success
installs it and then closes the previous one.  SSH clients are identified
by handles; the ordered event trace records what happened to them. -/
structure SshClient where
  id : Nat
  deriving Repr, DecidableEq

inductive ReconnectEvent where
  | dialFailed : ReconnectEvent
  | dialEstablished (c : SshClient) : ReconnectEvent
  | installed (c : SshClient) : ReconnectEvent
  | closedOld (c : SshClient) : ReconnectEvent
  deriving Repr, DecidableEq

/-- Embeds `Tunnel.reconnectSSH`: `dialResult` is what `ssh.Dial` to
`host:22` produced.  Returns the Go error, the client installed in
`t.client` after the call, and the ordered trace of effects. -/
def reconnectSSH (cur : SshClient) (dialResult : Option SshClient) :
    Option String × SshClient × List ReconnectEvent :=
  match dialResult with
  | none => (some "failed to reconnect SSH", cur, [.dialFailed])
  | some c =>
      (none, c, [.dialEstablished c, .installed c, .closedOld cur])

/-! ## Activity timestamps

`Tunnel.updateActivity` writes `time.Now()` into `LastActivity` under the
activity lock; nothing in tunnel.go ever writes `CreatedAt` after the
struct literal in `CreateTunnel`.  Go reads both timestamps from a clock
with a monotonic reading, modelled as instants supplied in non-decreasing
order. -/
inductive TunnelOp where
  | updateActivity : TunnelOp
  | passive : TunnelOp
  deriving Repr, DecidableEq

/-- Applying one operation at instant `now`: `updateActivity` stores the
instant; every other operation of tunnel.go leaves both timestamps
alone. -/
def applyOp (t : TunnelRec) (op : TunnelOp) (now : Nat) : TunnelRec :=
  match op with
  | .updateActivity => { t with lastActivity := now }
  | .passive => t

/-- A tunnel's life after creation: the timestamped operations applied in
order. -/
def runOps (t : TunnelRec) : List (TunnelOp × Nat) → TunnelRec
  | [] => t
  | (op, now) :: rest => runOps (applyOp t op now) rest

/-! ## Activity Meter byte counters

Modelled from the spec: the tunnel.go revision defining the per-tunnel
`BytesSent`/`BytesReceived` counters is not in the source tree — only its
caller `server.ListTunnels` (cmd/tunneld/main.go, which copies
`t.BytesSent` and `t.BytesReceived` into the listing snapshot) and the
protobuf declaration of the fields are.  Per the spec, the meter exposes
`record_bytes_sent(n)` / `record_bytes_received(n)`, each copy-loop
direction adds the bytes of every successful transfer to its own counter,
and the counters are u64 cumulative totals shared by all of the tunnel's
forwarding sessions. -/
structure ActivityMeter where
  bytesSent : Nat
  bytesReceived : Nat
  deriving Repr, DecidableEq

/-- Pump direction: `local->remote` feeds `bytes_sent`, `remote->local`
feeds `bytes_received`. -/
inductive Direction where
  | up : Direction
  | down : Direction
  deriving Repr, DecidableEq

/-- One successful byte transfer observed by some copy loop. -/
structure Transfer where
  dir : Direction
  bytes : Nat
  deriving Repr, DecidableEq

/-- Modelled from the spec: `record_bytes_sent` / `record_bytes_received`
add the transferred bytes to the counter of the transfer's direction. -/
def recordTransfer (m : ActivityMeter) (tr : Transfer) : ActivityMeter :=
  match tr.dir with
  | .up => { m with bytesSent := m.bytesSent + tr.bytes }
  | .down => { m with bytesReceived := m.bytesReceived + tr.bytes }

/-- The meter after an interleaved stream of transfers from all of the
tunnel's forwarding sessions. -/
def applyTransfers (m : ActivityMeter) : List Transfer → ActivityMeter
  | [] => m
  | tr :: rest => applyTransfers (recordTransfer m tr) rest

/-- Total bytes of the transfers in direction `d`. -/
def sumDir (d : Direction) : List Transfer → Nat
  | [] => 0
  | tr :: rest => (if tr.dir = d then tr.bytes else 0) + sumDir d rest

/-- The successful transfers a copy loop in direction `dir` performs on an
event stream: one per `.next` iteration, in order. -/
def pumpTransfers (dir : Direction) : List PumpEvent → List Transfer
  | [] => []
  | ev :: rest =>
      match copyStep ev with
      | .next n => ⟨ dir, n ⟩ :: pumpTransfers dir rest
      | .stopSilent => []
      | .stopLogged _ => []

/-- Modelled from the spec: the pump loop of one direction driving the
shared meter — on each successful byte transfer it updates that
direction's counter. -/
def pumpWithMeter (dir : Direction) (m : ActivityMeter) :
    List PumpEvent → ActivityMeter
  | [] => m
  | ev :: rest =>
      match copyStep ev with
      | .next n => pumpWithMeter dir (recordTransfer m ⟨ dir, n ⟩) rest
      | .stopSilent => m
      | .stopLogged _ => m

/-! ## The CLI display sort

`sortTunnels` (cmd/tunnel/main.go) sorts the listing for display with
`sort.Slice` and a (host, remote_port) lexicographic `less`. -/

/-- Embeds the `less` closure of `sortTunnels`: first by host, then by
remote port. -/
def tunnelLess (a b : TunnelRec) : Bool :=
  if a.host != b.host then decide (a.host < b.host)
  else decide (a.remotePort < b.remotePort)

/-- The non-strict order `sort.Slice` establishes: `a` may precede `b`
exactly when `less b a` is false. -/
def tunnelLE (a b : TunnelRec) : Bool := !tunnelLess b a

/-- Embeds `sortTunnels`: the displayed list is the received list sorted
by (host, remote_port). -/
def sortTunnels (l : List TunnelRec) : List TunnelRec :=
  List.mergeSort l tunnelLE

/-! ## Concrete values used to instantiate the theorems -/

/-- A one-entry registry holding a tunnel to `h:80` from local port
8080. -/
def demoReg : Registry := [(tunnelKey "h" 80, mkTunnelRec "h" 8080 80 0)]

/-- An environment in which every setup step succeeds. -/
def demoEnvOK : SshEnv := ⟨ true, true, true, true, true, true ⟩

/-- A two-entry registry whose insertion order disagrees with the
(host, remote_port) order. -/
def regBA : Registry :=
  [ (tunnelKey "H" 81, mkTunnelRec "H" 8081 81 0),
    (tunnelKey "H" 80, mkTunnelRec "H" 8080 80 0) ]

/-- A pump iteration on an idle-but-open connection: the context is not
cancelled and the 5 s read deadline fires, so `src.Read` yields a network
operation error whose `Timeout()` reports true. -/
def idleTimeoutEvent : PumpEvent :=
  ⟨ false, .err (.opErr "i/o timeout" true), .ok ⟩

/-- A pump iteration that moves five bytes end to end. -/
def fiveByteEvent : PumpEvent := ⟨ false, .ok 5, .ok ⟩

/-! ## Helper lemmas -/

/-- After visiting every entry whose key covers the keys of `tm`, the
`CloseAllTunnels` loop leaves the map empty. -/
theorem closeAllLoop_covers :
    ∀ (l : List (String × TunnelRec)) (tm : Registry),
      (∀ kv ∈ tm, kv.1 ∈ List.map Prod.fst l) → closeAllLoop l tm = [] := by
  intro l
  induction l with
  | nil =>
      intro tm h
      cases tm with
      | nil => rfl
      | cons kv t => exact absurd (h kv (by simp)) (by simp)
  | cons hd tl ih =>
      intro tm h
      obtain ⟨ k, v ⟩ := hd
      show closeAllLoop tl (deleteKey tm k) = []
      refine ih (deleteKey tm k) ?_
      intro kv hkv
      have hmem := List.mem_filter.mp hkv
      have hne : kv.1 ≠ k := by simpa using hmem.2
      have := h kv hmem.1
      simp only [List.map_cons, List.mem_cons] at this
      exact this.resolve_left hne

/-! ## Claim theorems -/

/-- C7: the error classifier matches the specified enumeration exactly —
`isClosedError` accepts io.EOF and precisely the network operation errors
wrapping one of the three listed messages, and `isTimeout` accepts
precisely the net.Error values whose Timeout() bit is set. -/
theorem C7_classifier_exact (e : GoErr) :
    (isClosedError e = true ↔
      e = .eof ∨ ∃ msg t, e = .opErr msg t ∧
        (msg = "use of closed network connection" ∨
          msg = "connection reset by peer" ∨ msg = "broken pipe")) ∧
    (isTimeout e = true ↔
      ((∃ msg, e = .opErr msg true) ∨ e = .netErr true)) := by
  cases e <;> simp [isClosedError, isTimeout, or_assoc]

/-- C1: a duplicate (host, remote_port) key makes `CreateTunnel` fail with
"tunnel already exists" whatever the local port; every failing path leaves
the registry exactly as it was; and a new entry is registered exactly when
the call returns nil. -/
theorem C1_create_atomicity (tm : Registry) (host : String)
    (localPort remotePort : Int) (env : SshEnv) (now : Nat) :
    ((lookupKey tm (tunnelKey host remotePort)).isSome = true →
      createTunnel tm host localPort remotePort env now =
        (some "tunnel already exists", tm)) ∧
    (∀ e, (createTunnel tm host localPort remotePort env now).1 = some e →
      (createTunnel tm host localPort remotePort env now).2 = tm) ∧
    ((createTunnel tm host localPort remotePort env now).1 = none ↔
      (createTunnel tm host localPort remotePort env now).2 =
        tm ++ [(tunnelKey host remotePort,
                 mkTunnelRec host localPort remotePort now)]) := by
  simp only [createTunnel]
  split_ifs with h1 h2 h3 h4 h5 h6 h7 <;>
    simp_all [List.self_eq_append_right]

/-- C1 witness: on a registry already holding `h:80`, creating `h:80` from
a different local port fails with "tunnel already exists" and leaves the
registry unchanged. -/
theorem C1_create_atomicity_witness :
    createTunnel demoReg "h" 9090 80 demoEnvOK 3 =
      (some "tunnel already exists", demoReg) :=
  (C1_create_atomicity demoReg "h" 9090 80 demoEnvOK 3).1
    (by simp [demoReg, lookupKey, List.lookup])

/-- C6: `CloseAllTunnels` returns the number of tunnels present at entry,
leaves the registry map empty, and a subsequent listing under any map
iteration order returns no tunnels. -/
theorem C6_closeAll_count_and_empty (tm : Registry) :
    (closeAllTunnels tm).1 = List.length tm ∧
    (closeAllTunnels tm).2 = [] ∧
    ∀ ord, listTunnels (closeAllTunnels tm).2 ord = [] := by
  have h2 : (closeAllTunnels tm).2 = [] :=
    closeAllLoop_covers tm tm (fun kv hkv => List.mem_map_of_mem Prod.fst hkv)
  refine ⟨ rfl, h2, fun ord => ?_ ⟩
  rw [h2]
  simp [listTunnels]

/-- C2: evaluating the pump loop at the failing input — an idle-but-open
connection whose 5 s read deadline fires, so the read returns a timeout
error.  The loop does not re-arm and retry: the iteration returns
silently, the loop is over, and the five bytes deliverable on the next
iteration are never transferred. -/
theorem C2_timeout_ends_pump :
    copyStep idleTimeoutEvent = .stopSilent ∧
    (copyStep idleTimeoutEvent).goesOn = false ∧
    copyData [idleTimeoutEvent, fiveByteEvent] = (0, []) ∧
    copyData [fiveByteEvent] = (5, []) := by
  refine ⟨ rfl, rfl, rfl, rfl ⟩

/-- C3 counterexample: when the keepalive request fails, the keepalive
goroutine started in `CreateTunnel` does not raise the reconnect signal —
refuting the claim that a failed keepalive raises it. -/
theorem C3_counterexample :
    ¬ ((keepaliveTick false).signaledReconnect = true) := by
  decide

/-- C3 amended: a failed keepalive request logs and terminates the
keepalive loop without raising the reconnect signal and without closing
the client or tearing down the tunnel; a successful request keeps the
loop running; raising the reconnect signal on a failed or timed-out probe
is done by the separate health-monitor loop. -/
theorem C3_keepalive_amended :
    keepaliveTick false = ⟨ true, true, false, false ⟩ ∧
    keepaliveTick true = ⟨ false, false, false, false ⟩ ∧
    (∀ ok, (keepaliveTick ok).signaledReconnect = false ∧
      (keepaliveTick ok).closedClient = false) ∧
    (monitorTick false .failed).signaledReconnect = true ∧
    (monitorTick false .timedOut).signaledReconnect = true ∧
    (∀ active probe, (monitorTick active probe).exits = false ∧
      (monitorTick active probe).closedClient = false) := by
  refine ⟨ rfl, rfl, fun ok => ?_, rfl, rfl, fun active probe => ?_ ⟩
  · cases ok <;> exact ⟨ rfl, rfl ⟩
  · cases active <;> cases probe <;> exact ⟨ rfl, rfl ⟩

/-- C5: `reconnectSSH` establishes the replacement before installing it
and closes the old client only after the new one is installed; on a
failed dial it returns an error, keeps the previously installed client,
and closes nothing. -/
theorem C5_reconnect_order (cur : SshClient) (dialResult : Option SshClient) :
    (dialResult = none →
      reconnectSSH cur none =
        (some "failed to reconnect SSH", cur, [.dialFailed]) ∧
      ∀ c, .installed c ∉ (reconnectSSH cur dialResult).2.2 ∧
        .closedOld c ∉ (reconnectSSH cur dialResult).2.2) ∧
    (∀ c, dialResult = some c →
      (reconnectSSH cur dialResult).1 = none ∧
      (reconnectSSH cur dialResult).2.1 = c ∧
      (reconnectSSH cur dialResult).2.2 =
        [.dialEstablished c, .installed c, .closedOld cur] ∧
      List.indexOf (ReconnectEvent.dialEstablished c)
          (reconnectSSH cur dialResult).2.2 <
        List.indexOf (ReconnectEvent.installed c)
          (reconnectSSH cur dialResult).2.2 ∧
      List.indexOf (ReconnectEvent.installed c)
          (reconnectSSH cur dialResult).2.2 <
        List.indexOf (ReconnectEvent.closedOld cur)
          (reconnectSSH cur dialResult).2.2) := by
  constructor
  · rintro rfl
    refine ⟨ rfl, fun c => ?_ ⟩
    simp [reconnectSSH]
  · rintro c rfl
    refine ⟨ rfl, rfl, rfl, ?_, ?_ ⟩ <;>
      simp [reconnectSSH, List.indexOf, List.findIdx_cons, Bool.cond_eq_if,
        beq_iff_eq]

/-- C5 witness: replacing client 0 by a successfully dialed client 1
installs client 1, and in the effect trace the installation strictly
precedes the close of client 0. -/
theorem C5_reconnect_order_witness :
    (reconnectSSH ⟨ 0 ⟩ (some ⟨ 1 ⟩)).2.1 = ⟨ 1 ⟩ ∧
    (reconnectSSH ⟨ 0 ⟩ (some ⟨ 1 ⟩)).2.2 =
      [.dialEstablished ⟨ 1 ⟩, .installed ⟨ 1 ⟩, .closedOld ⟨ 0 ⟩] ∧
    List.indexOf (ReconnectEvent.installed ⟨ 1 ⟩)
        (reconnectSSH ⟨ 0 ⟩ (some ⟨ 1 ⟩)).2.2 <
      List.indexOf (ReconnectEvent.closedOld ⟨ 0 ⟩)
        (reconnectSSH ⟨ 0 ⟩ (some ⟨ 1 ⟩)).2.2 :=
  match (C5_reconnect_order ⟨ 0 ⟩ (some ⟨ 1 ⟩)).2 ⟨ 1 ⟩ rfl with
  | ⟨ _, h2, h3, _, h5 ⟩ => ⟨ h2, h3, h5 ⟩

/-! ### Activity Meter helper lemmas -/

/-- `bytes_sent` after a transfer stream is the initial value plus the
up-direction total. -/
theorem applyTransfers_bytesSent :
    ∀ (trs : List Transfer) (m : ActivityMeter),
      (applyTransfers m trs).bytesSent = m.bytesSent + sumDir .up trs := by
  intro trs
  induction trs with
  | nil => intro m; rfl
  | cons tr rest ih =>
      intro m
      obtain ⟨ d, n ⟩ := tr
      cases d <;> simp [applyTransfers, recordTransfer, sumDir, ih] <;> try omega

/-- `bytes_received` after a transfer stream is the initial value plus
the down-direction total. -/
theorem applyTransfers_bytesReceived :
    ∀ (trs : List Transfer) (m : ActivityMeter),
      (applyTransfers m trs).bytesReceived =
        m.bytesReceived + sumDir .down trs := by
  intro trs
  induction trs with
  | nil => intro m; rfl
  | cons tr rest ih =>
      intro m
      obtain ⟨ d, n ⟩ := tr
      cases d <;> simp [applyTransfers, recordTransfer, sumDir, ih] <;> try omega

/-- Transfer streams compose. -/
theorem applyTransfers_append :
    ∀ (l1 l2 : List Transfer) (m : ActivityMeter),
      applyTransfers m (l1 ++ l2) = applyTransfers (applyTransfers m l1) l2 := by
  intro l1
  induction l1 with
  | nil => intro l2 m; rfl
  | cons tr rest ih => intro l2 m; simp [applyTransfers, ih]

/-- The pump driving the meter records exactly the successful transfers
of its event stream. -/
theorem pumpWithMeter_eq :
    ∀ (evs : List PumpEvent) (dir : Direction) (m : ActivityMeter),
      pumpWithMeter dir m evs = applyTransfers m (pumpTransfers dir evs) := by
  intro evs
  induction evs with
  | nil => intro dir m; rfl
  | cons ev rest ih =>
      intro dir m
      simp only [pumpWithMeter, pumpTransfers]
      cases h : copyStep ev <;> simp [applyTransfers, ih]

/-- C4: over any interleaved stream of successful transfers from the
tunnel's forwarding sessions, the snapshot counters equal the initial
values plus the per-direction totals, every prefix of the stream shows
counters no larger than the full stream's (monotone non-decreasing), and
a pump loop updates its direction's counter on exactly its successful
transfers. -/
theorem C4_byte_counters (m0 : ActivityMeter) (trs : List Transfer) :
    ((applyTransfers m0 trs).bytesSent = m0.bytesSent + sumDir .up trs ∧
     (applyTransfers m0 trs).bytesReceived =
       m0.bytesReceived + sumDir .down trs) ∧
    (∀ l1 l2, trs = l1 ++ l2 →
      (applyTransfers m0 l1).bytesSent ≤ (applyTransfers m0 trs).bytesSent ∧
      (applyTransfers m0 l1).bytesReceived ≤
        (applyTransfers m0 trs).bytesReceived) ∧
    (∀ dir evs m, pumpWithMeter dir m evs =
      applyTransfers m (pumpTransfers dir evs)) := by
  refine ⟨ ⟨ applyTransfers_bytesSent trs m0,
      applyTransfers_bytesReceived trs m0 ⟩, ?_,
      fun dir evs m => pumpWithMeter_eq evs dir m ⟩
  rintro l1 l2 rfl
  rw [applyTransfers_append]
  constructor
  · rw [applyTransfers_bytesSent l2 (applyTransfers m0 l1)]
    omega
  · rw [applyTransfers_bytesReceived l2 (applyTransfers m0 l1)]
    omega

/-- C4 witness: three bytes up then four bytes down — the prefix holding
only the up transfer shows counters no larger than the full stream's. -/
theorem C4_byte_counters_witness :
    (applyTransfers ⟨ 0, 0 ⟩ [⟨ .up, 3 ⟩]).bytesSent ≤
      (applyTransfers ⟨ 0, 0 ⟩ [⟨ .up, 3 ⟩, ⟨ .down, 4 ⟩]).bytesSent ∧
    (applyTransfers ⟨ 0, 0 ⟩ [⟨ .up, 3 ⟩]).bytesReceived ≤
      (applyTransfers ⟨ 0, 0 ⟩ [⟨ .up, 3 ⟩, ⟨ .down, 4 ⟩]).bytesReceived :=
  (C4_byte_counters ⟨ 0, 0 ⟩ [⟨ .up, 3 ⟩, ⟨ .down, 4 ⟩]).2.1
    [⟨ .up, 3 ⟩] [⟨ .down, 4 ⟩] rfl

/-! ### Timestamp helper lemmas -/

/-- Nothing after creation writes `CreatedAt`. -/
theorem runOps_createdAt :
    ∀ (ops : List (TunnelOp × Nat)) (t : TunnelRec),
      (runOps t ops).createdAt = t.createdAt := by
  intro ops
  induction ops with
  | nil => intro t; rfl
  | cons p rest ih =>
      intro t
      obtain ⟨ op, n ⟩ := p
      cases op <;> simp [runOps, applyOp, ih]

/-- Operation streams compose. -/
theorem runOps_append :
    ∀ (l1 l2 : List (TunnelOp × Nat)) (t : TunnelRec),
      runOps t (l1 ++ l2) = runOps (runOps t l1) l2 := by
  intro l1
  induction l1 with
  | nil => intro l2 t; rfl
  | cons p rest ih =>
      intro l2 t
      obtain ⟨ op, n ⟩ := p
      simp [runOps, ih]

/-- A `≤`-chain survives lowering its head. -/
theorem chain_le_head {a b : Nat} {l : List Nat} (hab : a ≤ b)
    (h : List.Chain (· ≤ ·) b l) : List.Chain (· ≤ ·) a l := by
  cases l with
  | nil => exact List.Chain.nil
  | cons c t =>
      rw [List.chain_cons] at h ⊢
      exact ⟨ le_trans hab h.1, h.2 ⟩

/-- A `≤`-chain restricts to a prefix. -/
theorem chain_append_left {a : Nat} :
    ∀ {x y : List Nat}, List.Chain (· ≤ ·) a (x ++ y) →
      List.Chain (· ≤ ·) a x := by
  intro x
  induction x generalizing a with
  | nil => intro y _; exact List.Chain.nil
  | cons b x ih =>
      intro y h
      rw [List.cons_append, List.chain_cons] at h
      exact List.chain_cons.mpr ⟨ h.1, ih h.2 ⟩

/-- Under a monotone clock, `LastActivity` never decreases across a run
of operations. -/
theorem runOps_last_le :
    ∀ (ops : List (TunnelOp × Nat)) (t : TunnelRec),
      List.Chain (· ≤ ·) t.lastActivity (ops.map Prod.snd) →
      t.lastActivity ≤ (runOps t ops).lastActivity := by
  intro ops
  induction ops with
  | nil => intro t _; exact le_refl _
  | cons p rest ih =>
      intro t h
      obtain ⟨ op, n ⟩ := p
      rw [List.map_cons, List.chain_cons] at h
      cases op with
      | updateActivity =>
          refine le_trans h.1 (ih { t with lastActivity := n } h.2)
      | passive =>
          exact ih t (chain_le_head h.1 h.2)

/-- The clock chain for the remaining operations still starts no earlier
than the `LastActivity` reached so far. -/
theorem runOps_chain_suffix :
    ∀ (l1 l2 : List (TunnelOp × Nat)) (t : TunnelRec),
      List.Chain (· ≤ ·) t.lastActivity ((l1 ++ l2).map Prod.snd) →
      List.Chain (· ≤ ·) (runOps t l1).lastActivity (l2.map Prod.snd) := by
  intro l1
  induction l1 with
  | nil => intro l2 t h; exact h
  | cons p rest ih =>
      intro l2 t h
      obtain ⟨ op, n ⟩ := p
      rw [List.cons_append, List.map_cons, List.chain_cons] at h
      cases op with
      | updateActivity => exact ih l2 { t with lastActivity := n } h.2
      | passive => exact ih l2 t (chain_le_head h.1 h.2)

/-- C8: with the clock instants supplied in non-decreasing order (Go's
monotonic clock), `CreatedAt` stays at its creation value at every point
of the run, `LastActivity` starts at the creation instant, never falls
below it, never falls below `CreatedAt`, and never moves backward across
any prefix of the operation sequence. -/
theorem C8_timestamps (host : String) (lp rp : Int) (t0 : Nat)
    (ops : List (TunnelOp × Nat))
    (hclock : List.Chain (· ≤ ·) t0 (List.map Prod.snd ops)) :
    ∀ l1 l2, ops = l1 ++ l2 →
      (runOps (mkTunnelRec host lp rp t0) l1).createdAt = t0 ∧
      t0 ≤ (runOps (mkTunnelRec host lp rp t0) l1).lastActivity ∧
      (runOps (mkTunnelRec host lp rp t0) l1).createdAt ≤
        (runOps (mkTunnelRec host lp rp t0) l1).lastActivity ∧
      (runOps (mkTunnelRec host lp rp t0) l1).lastActivity ≤
        (runOps (mkTunnelRec host lp rp t0) ops).lastActivity := by
  rintro l1 l2 rfl
  have hinit : (mkTunnelRec host lp rp t0).lastActivity = t0 := rfl
  have hchain1 : List.Chain (· ≤ ·) (mkTunnelRec host lp rp t0).lastActivity
      (List.map Prod.snd l1) := by
    rw [hinit]
    exact chain_append_left (by rw [List.map_append] at hclock; exact hclock)
  have hcreated : (runOps (mkTunnelRec host lp rp t0) l1).createdAt = t0 :=
    runOps_createdAt l1 (mkTunnelRec host lp rp t0)
  have hle1 : t0 ≤ (runOps (mkTunnelRec host lp rp t0) l1).lastActivity := by
    have := runOps_last_le l1 (mkTunnelRec host lp rp t0) hchain1
    rw [hinit] at this
    exact this
  refine ⟨ hcreated, hle1, by rw [hcreated]; exact hle1, ?_ ⟩
  rw [runOps_append]
  refine runOps_last_le l2 (runOps (mkTunnelRec host lp rp t0) l1) ?_
  refine runOps_chain_suffix l1 l2 (mkTunnelRec host lp rp t0) ?_
  rw [hinit]
  exact hclock

/-- C8 witness: creation at instant 3, an activity update at instant 5,
then a passive operation at instant 7 — the prefix timestamps never
exceed the final ones and never fall below the creation instant. -/
theorem C8_timestamps_witness :
    (runOps (mkTunnelRec "h" 8080 80 3) [(.updateActivity, 5)]).createdAt = 3 ∧
    3 ≤ (runOps (mkTunnelRec "h" 8080 80 3)
          [(.updateActivity, 5)]).lastActivity ∧
    (runOps (mkTunnelRec "h" 8080 80 3) [(.updateActivity, 5)]).createdAt ≤
      (runOps (mkTunnelRec "h" 8080 80 3) [(.updateActivity, 5)]).lastActivity ∧
    (runOps (mkTunnelRec "h" 8080 80 3) [(.updateActivity, 5)]).lastActivity ≤
      (runOps (mkTunnelRec "h" 8080 80 3)
        [(.updateActivity, 5), (.passive, 7)]).lastActivity :=
  C8_timestamps "h" 8080 80 3 [(.updateActivity, 5), (.passive, 7)]
    (by norm_num [List.chain_cons]) [(.updateActivity, 5)] [(.passive, 7)] rfl

/-! ### Decimal rendering lemmas for the registry key -/

/-- Digit characters are injective on digit values. -/
theorem goDigitChar_inj {d1 d2 : Nat} (h1 : d1 < 10) (h2 : d2 < 10)
    (h : goDigitChar d1 = goDigitChar d2) : d1 = d2 := by
  interval_cases d1 <;> interval_cases d2 <;>
    first
      | rfl
      | exact absurd h (by decide)

/-- No digit character is the key separator. -/
theorem goDigitChar_ne_colon {d : Nat} (h : d < 10) :
    goDigitChar d ≠ Char.ofNat 58 := by
  interval_cases d <;> decide

/-- No digit character is the minus sign. -/
theorem goDigitChar_ne_minus {d : Nat} (h : d < 10) :
    goDigitChar d ≠ Char.ofNat 45 := by
  interval_cases d <;> decide

/-- Mapping digit values to digit characters is injective on digit
lists. -/
theorem map_goDigitChar_inj :
    ∀ (l1 l2 : List Nat), (∀ d ∈ l1, d < 10) → (∀ d ∈ l2, d < 10) →
      List.map goDigitChar l1 = List.map goDigitChar l2 → l1 = l2 := by
  intro l1
  induction l1 with
  | nil =>
      intro l2 _ _ h
      cases l2 with
      | nil => rfl
      | cons d2 t2 => simp at h
  | cons d t ih =>
      intro l2 h1 h2 h
      cases l2 with
      | nil => simp at h
      | cons d2 t2 =>
          simp only [List.map_cons, List.cons.injEq] at h
          have hd : d = d2 :=
            goDigitChar_inj (h1 d (by simp)) (h2 d2 (by simp)) h.1
          have ht : t = t2 :=
            ih t2 (fun a ha => h1 a (by simp [ha]))
              (fun a ha => h2 a (by simp [ha])) h.2
          rw [hd, ht]

/-- Every character of a rendered natural number is a digit
character. -/
theorem goFormatNat_mem_digit {n : Nat} {c : Char}
    (h : c ∈ goFormatNat n) : ∃ d, d < 10 ∧ c = goDigitChar d := by
  unfold goFormatNat at h
  by_cases hn : n = 0
  · rw [if_pos hn] at h
    refine ⟨ 0, by norm_num, ?_ ⟩
    simpa using h
  · rw [if_neg hn, List.mem_reverse] at h
    obtain ⟨ d, hd, hc ⟩ := List.mem_map.mp h
    exact ⟨ d, Nat.digits_lt_base (by norm_num) hd, hc.symm ⟩

/-- A rendered natural number starts with a digit character. -/
theorem goFormatNat_head (n : Nat) :
    ∃ d rest, d < 10 ∧ goFormatNat n = goDigitChar d :: rest := by
  have hne : goFormatNat n ≠ [] := by
    unfold goFormatNat
    by_cases hn : n = 0
    · rw [if_pos hn]; simp
    · rw [if_neg hn]
      simp [Nat.digits_ne_nil_iff_ne_zero, hn]
  obtain ⟨ c, rest, hcr ⟩ := List.exists_cons_of_ne_nil hne
  have hc : c ∈ goFormatNat n := by rw [hcr]; simp
  obtain ⟨ d, hd10, hcd ⟩ := goFormatNat_mem_digit hc
  exact ⟨ d, rest, hd10, by rw [hcr, hcd] ⟩

/-- The `%d` rendering of naturals is injective. -/
theorem goFormatNat_inj : ∀ {n1 n2 : Nat},
    goFormatNat n1 = goFormatNat n2 → n1 = n2 := by
  have single : ∀ {m : Nat}, m ≠ 0 →
      goFormatNat m = [goDigitChar 0] → False := by
    intro m hm h
    unfold goFormatNat at h
    rw [if_neg hm] at h
    have hmap : List.map goDigitChar (Nat.digits 10 m) = [goDigitChar 0] := by
      have := congrArg List.reverse h
      simpa using this
    have hdig : Nat.digits 10 m = [0] :=
      map_goDigitChar_inj (Nat.digits 10 m) [0]
        (fun d hd => Nat.digits_lt_base (by norm_num) hd)
        (by norm_num) hmap
    have := Nat.ofDigits_digits 10 m
    rw [hdig] at this
    simp [Nat.ofDigits] at this
    exact hm this.symm
  intro n1 n2 h
  by_cases h1 : n1 = 0 <;> by_cases h2 : n2 = 0
  · rw [h1, h2]
  · subst h1
    unfold goFormatNat at h
    rw [if_pos rfl] at h
    exact absurd h.symm (fun hc => single h2 hc)
  · subst h2
    unfold goFormatNat at h
    rw [if_pos rfl] at h
    exact absurd h (fun hc => single h1 hc)
  · unfold goFormatNat at h
    rw [if_neg h1, if_neg h2] at h
    have hmap := List.reverse_injective h
    have hdig : Nat.digits 10 n1 = Nat.digits 10 n2 :=
      map_goDigitChar_inj _ _
        (fun d hd => Nat.digits_lt_base (by norm_num) hd)
        (fun d hd => Nat.digits_lt_base (by norm_num) hd) hmap
    have e1 := Nat.ofDigits_digits 10 n1
    have e2 := Nat.ofDigits_digits 10 n2
    rw [← e1, ← e2, hdig]

/-- The `%d` rendering of Go ints is injective. -/
theorem goFormatInt_inj : ∀ {p1 p2 : Int},
    goFormatInt p1 = goFormatInt p2 → p1 = p2 := by
  intro p1 p2 h
  cases p1 with
  | ofNat n1 =>
      cases p2 with
      | ofNat n2 =>
          simp only [goFormatInt] at h
          rw [goFormatNat_inj h]
      | negSucc n2 =>
          simp only [goFormatInt] at h
          obtain ⟨ d, rest, hd10, hdr ⟩ := goFormatNat_head n1
          rw [hdr] at h
          have := List.head_eq_of_cons_eq h
          exact absurd this (goDigitChar_ne_minus hd10)
  | negSucc n1 =>
      cases p2 with
      | ofNat n2 =>
          simp only [goFormatInt] at h
          obtain ⟨ d, rest, hd10, hdr ⟩ := goFormatNat_head n2
          rw [hdr] at h
          have := List.head_eq_of_cons_eq h
          exact absurd this.symm (goDigitChar_ne_minus hd10)
      | negSucc n2 =>
          simp only [goFormatInt, List.cons.injEq] at h
          have hn := goFormatNat_inj h.2
          have hn2 : n1 = n2 := by omega
          rw [hn2]

/-- The decimal port suffix of a key contains no colon, whatever the
port. -/
theorem goFormatInt_no_colon (p : Int) :
    ∀ c ∈ goFormatInt p, c ≠ Char.ofNat 58 := by
  intro c hc
  cases p with
  | ofNat n =>
      obtain ⟨ d, hd10, hcd ⟩ := goFormatNat_mem_digit (n := n) hc
      rw [hcd]
      exact goDigitChar_ne_colon hd10
  | negSucc n =>
      simp only [goFormatInt, List.mem_cons] at hc
      rcases hc with hminus | htail
      · rw [hminus]; decide
      · obtain ⟨ d, hd10, hcd ⟩ := goFormatNat_mem_digit htail
        rw [hcd]
        exact goDigitChar_ne_colon hd10

/-- Splitting at a separator character absent from both prefixes is
unambiguous. -/
theorem append_sep_inj :
    ∀ (x z y w : List Char),
      (∀ c ∈ x, c ≠ Char.ofNat 58) → (∀ c ∈ z, c ≠ Char.ofNat 58) →
      x ++ Char.ofNat 58 :: y = z ++ Char.ofNat 58 :: w →
      x = z ∧ y = w := by
  intro x
  induction x with
  | nil =>
      intro z y w _ hz h
      cases z with
      | nil => simpa using h
      | cons c z2 =>
          simp only [List.nil_append, List.cons_append, List.cons.injEq] at h
          exact absurd h.1.symm (hz c (by simp))
  | cons c x2 ih =>
      intro z y w hx hz h
      cases z with
      | nil =>
          simp only [List.cons_append, List.nil_append, List.cons.injEq] at h
          exact absurd h.1 (hx c (by simp))
      | cons c2 z2 =>
          simp only [List.cons_append, List.cons.injEq] at h
          obtain ⟨ hxz, hyw ⟩ :=
            ih z2 y w (fun a ha => hx a (by simp [ha]))
              (fun a ha => hz a (by simp [ha])) h.2
          exact ⟨ by rw [h.1, hxz], hyw ⟩

/-- Key equality at the character level forces equal hosts and equal
ports. -/
theorem tunnelKeyChars_inj (h1 h2 : List Char) (p1 p2 : Int)
    (heq : tunnelKeyChars h1 p1 = tunnelKeyChars h2 p2) :
    h1 = h2 ∧ p1 = p2 := by
  unfold tunnelKeyChars at heq
  have hrev := congrArg List.reverse heq
  simp only [List.reverse_append, List.reverse_cons, List.append_assoc,
    List.singleton_append] at hrev
  have hsep := append_sep_inj (goFormatInt p1).reverse (goFormatInt p2).reverse
    h1.reverse h2.reverse
    (fun c hc => goFormatInt_no_colon p1 c (List.mem_reverse.mp hc))
    (fun c hc => goFormatInt_no_colon p2 c (List.mem_reverse.mp hc)) hrev
  constructor
  · exact List.reverse_injective hsep.2
  · exact goFormatInt_inj (List.reverse_injective hsep.1)

/-- C10: the registry key encoding is injective — the decimal port
suffix never contains a colon, so equal keys force equal hosts and equal
remote ports even when host names themselves contain colons; create and
close on distinct (host, remote_port) pairs never alias one registry
entry. -/
theorem C10_key_injective (host1 host2 : String) (p1 p2 : Int) :
    (∀ c ∈ goFormatInt p1, c ≠ Char.ofNat 58) ∧
    (tunnelKey host1 p1 = tunnelKey host2 p2 →
      host1 = host2 ∧ p1 = p2) := by
  refine ⟨ goFormatInt_no_colon p1, fun h => ?_ ⟩
  unfold tunnelKey at h
  have hdata : tunnelKeyChars host1.data p1 = tunnelKeyChars host2.data p2 := by
    injection h
  obtain ⟨ hh, hp ⟩ := tunnelKeyChars_inj _ _ _ _ hdata
  refine ⟨ ?_, hp ⟩
  cases host1
  cases host2
  exact congrArg String.mk (by simpa using hh)

/-- C10 witness: a host that itself contains a colon — equal keys still
force equal hosts and ports. -/
theorem C10_key_injective_witness :
    "a:1" = "a:1" ∧ (80 : Int) = 80 :=
  (C10_key_injective "a:1" "a:1" 80 80).2 rfl

/-! ### Listing order lemmas -/

/-- Visiting the registry in position order yields its entries in
insertion order. -/
theorem listTunnels_range :
    ∀ (tm : Registry),
      listTunnels tm (List.range (List.length tm)) = List.map Prod.snd tm := by
  intro tm
  induction tm with
  | nil => rfl
  | cons kv rest ih =>
      simp only [listTunnels] at ih ⊢
      rw [List.length_cons, List.range_succ_eq_map, List.filterMap_cons]
      simp only [List.get?_cons_zero, Option.map_some', List.filterMap_map]
      simp only [Function.comp_def, List.get?_cons_succ]
      rw [ih, List.map_cons]

/-- The CLI comparison agrees with the lexicographic (host, remote_port)
order. -/
theorem tunnelLE_iff (a b : TunnelRec) :
    tunnelLE a b = true ↔
      (a.host < b.host ∨
        (a.host = b.host ∧ a.remotePort ≤ b.remotePort)) := by
  unfold tunnelLE tunnelLess
  by_cases hh : a.host = b.host
  · simp [hh, bne, lt_irrefl, not_lt]
  · have hne : b.host ≠ a.host := fun e => hh e.symm
    have hbne : (b.host != a.host) = true := by simp [bne_iff_ne, hne]
    simp only [hbne, if_true, Bool.not_eq_true', decide_eq_false_iff_not,
      not_lt, hh, false_and, or_false]
    constructor
    · intro hle
      exact lt_of_le_of_ne hle hh
    · intro hlt
      exact le_of_lt hlt

/-- The CLI comparison is transitive. -/
theorem tunnelLE_trans (a b c : TunnelRec) (hab : tunnelLE a b = true)
    (hbc : tunnelLE b c = true) : tunnelLE a c = true := by
  rw [tunnelLE_iff] at hab hbc ⊢
  rcases hab with h1 | ⟨ h1, h1r ⟩ <;> rcases hbc with h2 | ⟨ h2, h2r ⟩
  · exact Or.inl (lt_trans h1 h2)
  · exact Or.inl (h2 ▸ h1)
  · exact Or.inl (h1 ▸ h2)
  · exact Or.inr ⟨ h1.trans h2, le_trans h1r h2r ⟩

/-- The CLI comparison is total. -/
theorem tunnelLE_total (a b : TunnelRec) :
    (tunnelLE a b || tunnelLE b a) = true := by
  rw [Bool.or_eq_true, tunnelLE_iff, tunnelLE_iff]
  rcases lt_trichotomy a.host b.host with h | h | h
  · exact Or.inl (Or.inl h)
  · rcases le_total a.remotePort b.remotePort with hr | hr
    · exact Or.inl (Or.inr ⟨ h, hr ⟩)
    · exact Or.inr (Or.inr ⟨ h.symm, hr ⟩)
  · exact Or.inr (Or.inl h)

/-- The CLI comparison orders both ways only when host and remote port
agree. -/
theorem tunnelLE_antisymm_keys (a b : TunnelRec)
    (hab : tunnelLE a b = true) (hba : tunnelLE b a = true) :
    a.host = b.host ∧ a.remotePort = b.remotePort := by
  rw [tunnelLE_iff] at hab hba
  have hhost : a.host = b.host := by
    rcases hab with h1 | ⟨ h1, _ ⟩ <;> rcases hba with h2 | ⟨ h2, _ ⟩
    · exact absurd h2 (lt_asymm h1)
    · exact h2.symm
    · exact h1
    · exact h1
  refine ⟨ hhost, ?_ ⟩
  rcases hab with h1 | ⟨ _, h1r ⟩
  · exact absurd h1 (by rw [hhost]; exact lt_irrefl _)
  rcases hba with h2 | ⟨ _, h2r ⟩
  · exact absurd h2 (by rw [hhost]; exact lt_irrefl _)
  exact le_antisymm h1r h2r

/-- Two sorted lists with the same elements coincide when the order is
antisymmetric on those elements. -/
theorem sorted_perm_unique {α : Type} {r : α → α → Prop} :
    ∀ (l1 l2 : List α), l1.Perm l2 → l1.Pairwise r → l2.Pairwise r →
      (∀ a ∈ l1, ∀ b ∈ l1, r a b → r b a → a = b) → l1 = l2 := by
  intro l1
  induction l1 with
  | nil =>
      intro l2 hp _ _ _
      exact (List.Perm.nil_eq hp).symm.symm
  | cons a t1 ih =>
      intro l2 hp hp1 hp2 hanti
      cases l2 with
      | nil =>
          have := hp.eq_nil
          simp at this
      | cons b t2 =>
          by_cases hab : a = b
          · subst hab
            have ht := ih t2 hp.cons_inv hp1.of_cons hp2.of_cons
              (fun x hx y hy => hanti x (List.mem_cons_of_mem _ hx)
                y (List.mem_cons_of_mem _ hy))
            rw [ht]
          · have hamem : a ∈ b :: t2 := hp.mem_iff.mp (by simp)
            have hat2 : a ∈ t2 := by
              rcases List.mem_cons.mp hamem with h | h
              · exact absurd h hab
              · exact h
            have hbmem : b ∈ a :: t1 := hp.mem_iff.mpr (by simp)
            have hbt1 : b ∈ t1 := by
              rcases List.mem_cons.mp hbmem with h | h
              · exact absurd h.symm hab
              · exact h
            have hrab : r a b := List.rel_of_pairwise_cons hp1 hbt1
            have hrba : r b a := List.rel_of_pairwise_cons hp2 hat2
            exact absurd
              (hanti a (by simp) b (List.mem_cons_of_mem _ hbt1) hrab hrba)
              hab

/-- C9 counterexample: a registry holding (H, 81) then (H, 80).  Both
position orders are possible Go map iteration orders for it, and
`ListTunnels` returns different sequences under them — and the sequence
under the first order is not sorted by (host, remote_port) — refuting the
claim that listing is deterministic and (host, remote_port)-sorted. -/
theorem C9_counterexample :
    ValidOrder regBA [0, 1] ∧ ValidOrder regBA [1, 0] ∧
    listTunnels regBA [0, 1] ≠ listTunnels regBA [1, 0] ∧
    ¬ List.Pairwise (fun a b => tunnelLE a b = true)
      (listTunnels regBA [0, 1]) := by
  refine ⟨ List.Perm.refl _, List.Perm.swap 0 1 [], by decide, by decide ⟩

/-- C9 amended: `TunnelManager.ListTunnels` returns the registry entries
in the runtime's map iteration order, which is not deterministic —
deterministic content is still guaranteed (any valid order yields a
permutation of the entries), and the deterministic (host, remote_port)
order is produced by the CLI's `sortTunnels` before display: it returns
a sorted permutation of its input, and on registries whose entries have
pairwise distinct (host, remote_port) keys the displayed list is the
same whichever iteration order the runtime chose. -/
theorem C9_listing_amended :
    (∀ (tm : Registry) ord, ValidOrder tm ord →
      (listTunnels tm ord).Perm (List.map Prod.snd tm)) ∧
    (∀ l : List TunnelRec, (sortTunnels l).Perm l ∧
      List.Pairwise (fun a b => tunnelLE a b = true) (sortTunnels l)) ∧
    (∀ l1 l2 : List TunnelRec, l1.Perm l2 →
      (∀ a ∈ l1, ∀ b ∈ l1, a.host = b.host →
        a.remotePort = b.remotePort → a = b) →
      sortTunnels l1 = sortTunnels l2) := by
  refine ⟨ ?_, ?_, ?_ ⟩
  · intro tm ord hord
    have hperm := List.Perm.filterMap
      (fun i => Option.map Prod.snd (List.get? tm i)) hord
    have hr := listTunnels_range tm
    simp only [listTunnels] at hr
    rw [hr] at hperm
    exact hperm
  · intro l
    refine ⟨ List.mergeSort_perm l tunnelLE, ?_ ⟩
    exact List.sorted_mergeSort
      (fun a b c => tunnelLE_trans a b c) tunnelLE_total l
  · intro l1 l2 hperm hkeys
    refine @sorted_perm_unique TunnelRec (fun a b => tunnelLE a b = true)
      (sortTunnels l1) (sortTunnels l2) ?_ ?_ ?_ ?_
    · exact ((List.mergeSort_perm l1 tunnelLE).trans hperm).trans
        (List.mergeSort_perm l2 tunnelLE).symm
    · exact List.sorted_mergeSort (fun a b c => tunnelLE_trans a b c)
        tunnelLE_total l1
    · exact List.sorted_mergeSort (fun a b c => tunnelLE_trans a b c)
        tunnelLE_total l2
    · intro a ha b hb hab hba
      have ha1 : a ∈ l1 := (List.mergeSort_perm l1 tunnelLE).mem_iff.mp ha
      have hb1 : b ∈ l1 := (List.mergeSort_perm l1 tunnelLE).mem_iff.mp hb
      obtain ⟨ hh, hr ⟩ := tunnelLE_antisymm_keys a b hab hba
      exact hkeys a ha1 b hb1 hh hr

/-- C9 witness: on the two-entry registry, the CLI sort produces the same
displayed list from both map iteration orders. -/
theorem C9_listing_amended_witness :
    sortTunnels (listTunnels regBA [0, 1]) =
      sortTunnels (listTunnels regBA [1, 0]) :=
  C9_listing_amended.2.2 (listTunnels regBA [0, 1])
    (listTunnels regBA [1, 0]) (by decide) (by decide)

end GoTunnel
